import Mathlib

/-!
A shallow embedding of the feedforward neural-network implementation
(network.js: the Network constructor, Network.node, feedInputs, outputs,
totalError and trainingStep) together with the example network built in
example.js.

Modelling conventions:
* JavaScript numbers are idealised as elements of an arbitrary commutative
  ring (instantiated with the reals for the numerical claims and with the
  integers for executable witnesses).  The network core uses only addition,
  multiplication and negation; the injected activation and error functions
  are fields of the network definition, exactly as in the source.
* In-place mutation of node scratch fields is modelled by returning an
  updated copy of the network state.
* JavaScript array reads are total: an out-of-range read yields undefined
  (and arithmetic on it yields NaN) rather than raising an error.  The
  embedding totalises such reads with a default value; every theorem below
  that inspects a value only does so at indices that are in range, where the
  embedding and the JavaScript semantics agree.  The source contains no
  length or topology check and never throws, which is why all operations
  here are total functions into the state type.
* Iteration forms of the source (Array.forEach / map / reduce with an index
  argument) are mirrored by explicit index-threading recursions.
-/

/-- One node of the network, as produced by Network.node in the source: the
incoming weights, the bias weight, and the cached scratch values
(cached.input, cached.output, cached.weightUpdates, cached.biasUpdate,
cached.errorWrtIn). -/
structure Node (α : Type) where
  weights : List α
  bias : α
  cachedInput : α
  cachedOutput : α
  cachedWeightUpdates : List α
  cachedBiasUpdate : α
  cachedErrorWrtIn : α
deriving DecidableEq

/-- The definition object passed to the Network constructor (see example.js):
the layers of nodes, the four injected functions and the update
multiplier. -/
structure NetworkDefinition (α : Type) where
  network : List (List (Node α))
  activationFunction : α → α
  activationFunctionDerivative : α → α
  errorFunction : α → α → α
  errorFunctionDerivative : α → α → α
  updateMultiplier : α

/-- The Network object: the constructor simply stores the definition
(function Network(definition) \x7b this.definition = definition \x7d), with no
validation of any kind. -/
structure Network (α : Type) where
  definition : NetworkDefinition α

/-- Mirrors a JavaScript map/forEach that also receives the element index,
threading the running index explicitly. -/
def mapWithIndexFrom {β γ : Type} (f : ℕ → β → γ) : ℕ → List β → List γ
  | _, [] => []
  | i, b :: bs => f i b :: mapWithIndexFrom f (i + 1) bs

/-- Index-aware map starting at index 0, as used by the source's
forEach((node, i) => ...) and map((w, i) => ...) calls. -/
def mapWithIndex {β γ : Type} (f : ℕ → β → γ) (l : List β) : List γ :=
  mapWithIndexFrom f 0 l

variable {α : Type} [CommRing α]

/-- Network.node(weights, bias): a fresh node with all scratch fields
zero-initialised and weightUpdates of the same length as weights. -/
def Network.node (weights : List α) (bias : α) : Node α :=
  { weights := weights
    bias := bias
    cachedInput := 0
    cachedOutput := 0
    cachedWeightUpdates := weights.map (fun _ => 0)
    cachedBiasUpdate := 0
    cachedErrorWrtIn := 0 }

/-- The weighted-sum reduce of feedInputs:
node.weights.reduce((v, w, i) => v + lastLayer[i].cached.output * w, 0),
with the accumulator and the running index threaded explicitly and the
outputs of the previous layer passed as a list. -/
def weightedSumFrom (outs : List α) : α → ℕ → List α → α
  | acc, _, [] => acc
  | acc, i, w :: ws => weightedSumFrom outs (acc + outs.getD i 0 * w) (i + 1) ws

/-- One layer of the forward pass: for each node of the layer, compute the
weighted sum of the previous layer's cached outputs, add the bias, and cache
the resulting input and activated output. -/
def layerForward (act : α → α) (lastLayer : List (Node α)) (layer : List (Node α)) :
    List (Node α) :=
  layer.map fun node =>
    let input := weightedSumFrom (lastLayer.map (·.cachedOutput)) 0 0 node.weights + node.bias
    { node with cachedInput := input, cachedOutput := act input }

/-- The loop for(let i = 1; i < network.length; i++) of feedInputs: forward
propagate through the non-input layers, each layer reading the (already
updated) previous layer. -/
def forwardLayers (act : α → α) : List (Node α) → List (List (Node α)) → List (List (Node α))
  | _, [] => []
  | lastLayer, layer :: rest =>
    let layer' := layerForward act lastLayer layer
    layer' :: forwardLayers act layer' rest

/-- network[0].forEach((node, i) => node.cached.output = inputs[i]): set the
input-layer nodes to be firing the provided input values. -/
def setInputLayer (inputs : List α) (layer : List (Node α)) : List (Node α) :=
  mapWithIndex (fun i node => { node with cachedOutput := inputs.getD i 0 }) layer

/-- Network.prototype.feedInputs(inputs): set the input layer outputs, then
forward propagate layer by layer.  The source performs no check on the
length of inputs. -/
def Network.feedInputs (self : Network α) (inputs : List α) : Network α :=
  { definition := { self.definition with network :=
      match self.definition.network with
      | [] => []
      | inputLayer :: rest =>
        let inputLayer' := setInputLayer inputs inputLayer
        inputLayer' :: forwardLayers self.definition.activationFunction inputLayer' rest } }

/-- Network.prototype.outputs(): the cached outputs of the last layer. -/
def Network.outputs (self : Network α) : List α :=
  ((self.definition.network.getLast?).getD []).map (·.cachedOutput)

/-- The reduce of Network.prototype.totalError:
reduce((sum, node, i) => sum + errorFunction(node.cached.output, expected[i]), 0),
with accumulator and index threaded explicitly. -/
def totalErrorFrom (errF : α → α → α) (expected : List α) : α → ℕ → List (Node α) → α
  | acc, _, [] => acc
  | acc, i, node :: rest =>
    totalErrorFrom errF expected (acc + errF node.cachedOutput (expected.getD i 0)) (i + 1) rest

/-- Network.prototype.totalError(expected): sum the injected error function
over the output layer, in node order.  A pure read: the type shows it
returns a scalar and no updated state. -/
def Network.totalError (self : Network α) (expected : List α) : α :=
  totalErrorFrom self.definition.errorFunction expected 0 0
    ((self.definition.network.getLast?).getD [])

/-- The output-layer block of trainingStep: for each output node i, compute
errorWrtOut = errorFunctionDerivative(output, expected[i]),
outWrtIn = activationFunctionDerivative(input), chain them, cache
errorWrtIn, and propose the weight and bias updates from the previous
layer's cached outputs. -/
def backOutputLayer (errD : α → α → α) (actD : α → α) (mult : α) (expected : List α)
    (previousLayerOuts : List α) (layer : List (Node α)) : List (Node α) :=
  mapWithIndex (fun i node =>
    let errorWrtOut := errD node.cachedOutput (expected.getD i 0)
    let outWrtIn := actD node.cachedInput
    let errorWrtIn := errorWrtOut * outWrtIn
    { node with
      cachedErrorWrtIn := errorWrtIn
      cachedWeightUpdates :=
        mapWithIndex (fun j _w => -(errorWrtIn * previousLayerOuts.getD j 0 * mult)) node.weights
      cachedBiasUpdate := errorWrtIn * 1 * mult }) layer

/-- The reduce of the hidden-layer block:
nextLayer.reduce((sum, nextNode) => sum + nextNode.cached.errorWrtIn * nextNode.weights[i], 0). -/
def nextErrorSum (nextLayer : List (Node α)) (i : ℕ) : α :=
  nextLayer.foldl (fun sum nextNode => sum + nextNode.cachedErrorWrtIn * nextNode.weights.getD i 0) 0

/-- The body of the hidden-layer loop of trainingStep at one layer: for each
node at position i, sum over the (already processed) next layer the cached
errorWrtIn times the connecting weight, chain with the activation
derivative, cache errorWrtIn, and propose weight and bias updates. -/
def backHiddenLayer (actD : α → α) (mult : α) (previousLayerOuts : List α)
    (nextLayer : List (Node α)) (layer : List (Node α)) : List (Node α) :=
  mapWithIndex (fun i node =>
    let errorWrtOut := nextErrorSum nextLayer i
    let outWrtIn := actD node.cachedInput
    let errorWrtIn := errorWrtOut * outWrtIn
    { node with
      cachedErrorWrtIn := errorWrtIn
      cachedWeightUpdates :=
        mapWithIndex (fun j _w => -1 * errorWrtIn * previousLayerOuts.getD j 0 * mult) node.weights
      cachedBiasUpdate := errorWrtIn * 1 * mult }) layer

/-- The whole propose phase of trainingStep on the non-input layers, given
the cached outputs of the layer just below: the last layer is processed by
the output-layer block and every other layer by the hidden-layer loop,
processed in strictly decreasing layer order (the recursion processes the
suffix, i.e. all higher layers, before the current layer, and hands the
current layer the already processed version of the next layer, exactly as
the in-place source loop for(let i = network.length-2; i > 0; i--) does). -/
def backLayers (errD : α → α → α) (actD : α → α) (mult : α) (expected : List α) :
    List α → List (List (Node α)) → List (List (Node α))
  | _, [] => []
  | previousLayerOuts, [layer] =>
    [backOutputLayer errD actD mult expected previousLayerOuts layer]
  | previousLayerOuts, layer :: next :: rest =>
    let processed := backLayers errD actD mult expected (layer.map (·.cachedOutput)) (next :: rest)
    backHiddenLayer actD mult previousLayerOuts (processed.getD 0 []) layer :: processed

/-- The final apply loop of trainingStep:
network.forEach(layer => layer.forEach(node =>
  node.weights = node.weights.map((w, i) => w + node.cached.weightUpdates[i]))). -/
def applyUpdates (layers : List (List (Node α))) : List (List (Node α)) :=
  layers.map fun layer => layer.map fun node =>
    { node with weights :=
        mapWithIndex (fun i w => w + node.cachedWeightUpdates.getD i 0) node.weights }

/-- The propose part of trainingStep (everything between the forward pass
and the apply loop): the input layer is left untouched and the remaining
layers are processed by backLayers, the first previous-layer outputs being
those of the input layer. -/
def Network.proposeUpdates (self : Network α) (expected : List α) : Network α :=
  { definition := { self.definition with network :=
      match self.definition.network with
      | [] => []
      | inputLayer :: rest =>
        inputLayer :: backLayers self.definition.errorFunctionDerivative
          self.definition.activationFunctionDerivative self.definition.updateMultiplier
          expected (inputLayer.map (·.cachedOutput)) rest } }

/-- Network.prototype.trainingStep(inputs, expected): forward pass, propose
updates backwards through the layers, then apply all proposed weight
updates.  (The source also reads this.totalError(expected) and
this.outputs() into two local constants that are never used; both are pure
reads and do not affect the state.)  The bias update proposals are cached
but never applied: the apply loop only rewrites node.weights. -/
def Network.trainingStep (self : Network α) (inputs expected : List α) : Network α :=
  let fed := self.feedInputs inputs
  let proposed := fed.proposeUpdates expected
  { definition := { proposed.definition with network := applyUpdates proposed.definition.network } }

/-- The node at layer index l and node index i of a network state; a fresh
zero node serves as the out-of-range default (the theorems below only use
indices that are in range). -/
def nodeAt (self : Network α) (l i : ℕ) : Node α :=
  (self.definition.network.getD l []).getD i (Network.node [] 0)

/-- The cached outputs of the layer at index l. -/
def layerOutputsAt (self : Network α) (l : ℕ) : List α :=
  (self.definition.network.getD l []).map (·.cachedOutput)

/-- The bias of every node, layer by layer. -/
def biasMatrix (self : Network α) : List (List α) :=
  self.definition.network.map (·.map (·.bias))

/-- The weights of every node, layer by layer. -/
def weightsMatrix (self : Network α) : List (List (List α)) :=
  self.definition.network.map (·.map (·.weights))

/-- The cached forward values (cached.input, cached.output) of every node,
layer by layer. -/
def forwardCache (self : Network α) : List (List (α × α)) :=
  self.definition.network.map (·.map (fun n => (n.cachedInput, n.cachedOutput)))

/-- The network definition built in example.js: two input nodes, two hidden
nodes with weights [[0.15, 0.2], [0.25, 0.3]] and bias 0.35, two output
nodes with weights [[0.4, 0.45], [0.5, 0.55]] and bias 0.6, logistic
activation 1 / (1 + exp(-val)) with its derivative a * (1 - a), squared
error halved 0.5 * (expected - output)^2 with derivative output - expected,
and update multiplier 0.5.  The exponential map is passed as a parameter
(Math.exp in the source); the numerical claims instantiate it with the real
exponential function. -/
def exampleDefinition {K : Type} [Field K] (expF : K → K) : NetworkDefinition K :=
  { network := [
      [Network.node [] 0, Network.node [] 0],
      [Network.node [0.15, 0.2] 0.35, Network.node [0.25, 0.3] 0.35],
      [Network.node [0.4, 0.45] 0.6, Network.node [0.5, 0.55] 0.6]]
    activationFunction := fun val => 1 / (1 + expF (-val))
    activationFunctionDerivative := fun val =>
      let a := 1 / (1 + expF (-val))
      a * (1 - a)
    errorFunction := fun output expected => 0.5 * (expected - output) ^ 2
    errorFunctionDerivative := fun output expected => output - expected
    updateMultiplier := 0.5 }

/-- The error-with-respect-to-input of output node i as the specification
states it: errorDerivative(node.lastOutput, expected[i]) times
activationDerivative(node.lastInput), read off the forward-pass state. -/
def outputErrorWrtIn (self : Network α) (inputs expected : List α) (i : ℕ) : α :=
  self.definition.errorFunctionDerivative
      (nodeAt (self.feedInputs inputs) (self.definition.network.length - 1) i).cachedOutput
      (expected.getD i 0)
    * self.definition.activationFunctionDerivative
        (nodeAt (self.feedInputs inputs) (self.definition.network.length - 1) i).cachedInput

/-- A small concrete network definition over the integers (two input nodes,
two hidden nodes, one output node) with simple computable injected
functions; it is used to instantiate the general theorems on an executable
input. -/
def witnessDefinition : NetworkDefinition ℤ :=
  { network := [[Network.node [] 0, Network.node [] 0],
                [Network.node [1, 2] 1, Network.node [3, 4] 1],
                [Network.node [5, 6] 2]]
    activationFunction := fun v => v + 1
    activationFunctionDerivative := fun v => 2 * v
    errorFunction := fun a e => (a - e) * (a - e)
    errorFunctionDerivative := fun a e => a - e
    updateMultiplier := 3 }

/-- The concrete network built from witnessDefinition. -/
def witnessNetwork : Network ℤ := Network.mk witnessDefinition

/-- A network definition with a single layer: fewer than the two layers the
specification requires of a valid topology.  The constructor and the
operations accept it without complaint. -/
def invalidDefinition : NetworkDefinition ℤ :=
  { network := [[Network.node [] 0]]
    activationFunction := fun v => v
    activationFunctionDerivative := fun _ => 1
    errorFunction := fun a e => a - e
    errorFunctionDerivative := fun a e => a - e
    updateMultiplier := 1 }

/-! ### Basic lemmas about the iteration helpers -/

variable {β γ δ : Type}

theorem length_mapWithIndexFrom (f : ℕ → β → γ) :
    ∀ (i : ℕ) (l : List β), (mapWithIndexFrom f i l).length = l.length := by
  intro i l
  induction l generalizing i with
  | nil => rfl
  | cons b bs ih => simp [mapWithIndexFrom, ih]

theorem length_mapWithIndex (f : ℕ → β → γ) (l : List β) :
    (mapWithIndex f l).length = l.length :=
  length_mapWithIndexFrom f 0 l

theorem getD_mapWithIndexFrom (f : ℕ → β → γ) (d : γ) (d' : β) :
    ∀ (i j : ℕ) (l : List β), j < l.length →
      (mapWithIndexFrom f i l).getD j d = f (i + j) (l.getD j d') := by
  intro i j l
  induction l generalizing i j with
  | nil => intro h; simp at h
  | cons b bs ih =>
    intro h
    cases j with
    | zero => simp [mapWithIndexFrom]
    | succ j =>
      have hj : j < bs.length := by simpa using h
      have := ih (i + 1) j hj
      simpa [mapWithIndexFrom, Nat.add_assoc, Nat.add_comm 1 j] using this

theorem getD_mapWithIndex (f : ℕ → β → γ) (d : γ) (d' : β) (j : ℕ) (l : List β)
    (h : j < l.length) : (mapWithIndex f l).getD j d = f j (l.getD j d') := by
  simpa using getD_mapWithIndexFrom f d d' 0 j l h

theorem map_mapWithIndexFrom (g : γ → δ) (f : ℕ → β → γ) (g' : β → δ)
    (h : ∀ i b, g (f i b) = g' b) :
    ∀ (i : ℕ) (l : List β), (mapWithIndexFrom f i l).map g = l.map g' := by
  intro i l
  induction l generalizing i with
  | nil => rfl
  | cons b bs ih => simp [mapWithIndexFrom, h, ih]

theorem map_mapWithIndex (g : γ → δ) (f : ℕ → β → γ) (g' : β → δ)
    (h : ∀ i b, g (f i b) = g' b) (l : List β) :
    (mapWithIndex f l).map g = l.map g' :=
  map_mapWithIndexFrom g f g' h 0 l

theorem getD_map_of_lt (f : β → γ) (l : List β) (j : ℕ) (h : j < l.length) (d : γ) (d' : β) :
    (l.map f).getD j d = f (l.getD j d') := by
  rw [List.getD_eq_getElem _ _ (by simpa using h), List.getD_eq_getElem _ _ h]
  simp

/-! ### The index-threaded reduces as range sums -/

theorem weightedSumFrom_eq (outs : List α) :
    ∀ (ws : List α) (acc : α) (i : ℕ),
      weightedSumFrom outs acc i ws
        = acc + ∑ k in Finset.range ws.length, outs.getD (i + k) 0 * ws.getD k 0 := by
  intro ws
  induction ws with
  | nil => intro acc i; simp [weightedSumFrom]
  | cons w ws ih =>
    intro acc i
    rw [weightedSumFrom, ih]
    simp only [List.length_cons]
    rw [Finset.sum_range_succ' (fun k => outs.getD (i + k) 0 * (w :: ws).getD k 0) ws.length]
    have hidx : ∀ k, outs.getD (i + 1 + k) 0 * ws.getD k 0
        = outs.getD (i + (k + 1)) 0 * (w :: ws).getD (k + 1) 0 := by
      intro k
      rw [show i + 1 + k = i + (k + 1) from by omega]
      simp
    rw [Finset.sum_congr rfl (fun k _ => hidx k)]
    simp only [List.getD_cons_zero, Nat.add_zero]
    ring

theorem totalErrorFrom_eq (errF : α → α → α) (expected : List α) :
    ∀ (nodes : List (Node α)) (acc : α) (i : ℕ),
      totalErrorFrom errF expected acc i nodes
        = acc + ∑ k in Finset.range nodes.length,
            errF ((nodes.getD k (Network.node [] 0)).cachedOutput) (expected.getD (i + k) 0) := by
  intro nodes
  induction nodes with
  | nil => intro acc i; simp [totalErrorFrom]
  | cons node rest ih =>
    intro acc i
    rw [totalErrorFrom, ih]
    simp only [List.length_cons]
    rw [Finset.sum_range_succ' (fun k =>
      errF (((node :: rest).getD k (Network.node [] 0)).cachedOutput) (expected.getD (i + k) 0))
      rest.length]
    have hidx : ∀ k, errF ((rest.getD k (Network.node [] 0)).cachedOutput)
          (expected.getD (i + 1 + k) 0)
        = errF (((node :: rest).getD (k + 1) (Network.node [] 0)).cachedOutput)
          (expected.getD (i + (k + 1)) 0) := by
      intro k
      rw [show i + 1 + k = i + (k + 1) from by omega]
      simp
    rw [Finset.sum_congr rfl (fun k _ => hidx k)]
    simp only [List.getD_cons_zero, Nat.add_zero]
    ring

theorem foldl_add_eq (f : β → α) (d' : β) :
    ∀ (l : List β) (a : α),
      l.foldl (fun s x => s + f x) a = a + ∑ k in Finset.range l.length, f (l.getD k d') := by
  intro l
  induction l with
  | nil => intro a; simp
  | cons b bs ih =>
    intro a
    rw [List.foldl_cons, ih]
    simp only [List.length_cons]
    rw [Finset.sum_range_succ' (fun k => f ((b :: bs).getD k d')) bs.length]
    simp only [List.getD_cons_succ, List.getD_cons_zero]
    ring

theorem nextErrorSum_eq (nextLayer : List (Node α)) (i : ℕ) :
    nextErrorSum nextLayer i
      = ∑ k in Finset.range nextLayer.length,
          (nextLayer.getD k (Network.node [] 0)).cachedErrorWrtIn
            * (nextLayer.getD k (Network.node [] 0)).weights.getD i 0 := by
  have := foldl_add_eq
    (fun nextNode : Node α => nextNode.cachedErrorWrtIn * nextNode.weights.getD i 0)
    (Network.node [] 0) nextLayer 0
  simpa [nextErrorSum] using this


/-! ### Forward pass lemmas -/

theorem length_forwardLayers (act : α → α) :
    ∀ (prev : List (Node α)) (ls : List (List (Node α))),
      (forwardLayers act prev ls).length = ls.length := by
  intro prev ls
  induction ls generalizing prev with
  | nil => rfl
  | cons layer rest ih => simp [forwardLayers, ih]

theorem forwardLayers_getD (act : α → α) :
    ∀ (ls : List (List (Node α))) (prev : List (Node α)) (l : ℕ), l < ls.length →
      (forwardLayers act prev ls).getD l []
        = layerForward act ((prev :: forwardLayers act prev ls).getD l []) (ls.getD l []) := by
  intro ls
  induction ls with
  | nil => intro prev l h; simp at h
  | cons layer rest ih =>
    intro prev l h
    cases l with
    | zero => simp [forwardLayers]
    | succ k =>
      have hk : k < rest.length := by simpa using h
      simpa [forwardLayers] using ih (layerForward act prev layer) k hk

theorem layerForward_weights (act : α → α) (prev layer : List (Node α)) :
    (layerForward act prev layer).map (·.weights) = layer.map (·.weights) := by
  simp only [layerForward, List.map_map]
  rfl

theorem layerForward_bias (act : α → α) (prev layer : List (Node α)) :
    (layerForward act prev layer).map (·.bias) = layer.map (·.bias) := by
  simp only [layerForward, List.map_map]
  rfl

theorem length_layerForward (act : α → α) (prev layer : List (Node α)) :
    (layerForward act prev layer).length = layer.length := by
  simp [layerForward]

theorem length_setInputLayer (inputs : List α) (layer : List (Node α)) :
    (setInputLayer inputs layer).length = layer.length :=
  length_mapWithIndex _ layer

/-- Re-running the forward pass over already-forwarded layers gives the same
layers: the recomputed caches only depend on weights, bias and the previous
layer's outputs, all of which the first forward pass left as the second
finds them. -/
theorem layerForward_layerForward (act : α → α) (prev prev' layer : List (Node α)) :
    layerForward act prev (layerForward act prev' layer) = layerForward act prev layer := by
  simp only [layerForward, List.map_map]
  rfl

theorem forwardLayers_forwardLayers (act : α → α) :
    ∀ (ls : List (List (Node α))) (p p' : List (Node α)),
      forwardLayers act p (forwardLayers act p' ls) = forwardLayers act p ls := by
  intro ls
  induction ls with
  | nil => intro p p'; rfl
  | cons layer rest ih =>
    intro p p'
    simp only [forwardLayers, layerForward_layerForward]
    exact congrArg _ (ih _ _)

theorem setInputLayer_setInputLayer (inputs inputs' : List α) (layer : List (Node α)) :
    setInputLayer inputs (setInputLayer inputs' layer) = setInputLayer inputs layer := by
  simp only [setInputLayer, mapWithIndex]
  generalize 0 = i
  induction layer generalizing i with
  | nil => rfl
  | cons node rest ih => simp only [mapWithIndexFrom, ih]

/-- Layer outputs of setInputLayer are unchanged except for cachedOutput;
its weights and biases are those of the original layer. -/
theorem setInputLayer_weights (inputs : List α) (layer : List (Node α)) :
    (setInputLayer inputs layer).map (·.weights) = layer.map (·.weights) :=
  map_mapWithIndex (·.weights) (fun i node => { node with cachedOutput := inputs.getD i 0 })
    (·.weights) (fun _ _ => rfl) layer

theorem setInputLayer_bias (inputs : List α) (layer : List (Node α)) :
    (setInputLayer inputs layer).map (·.bias) = layer.map (·.bias) :=
  map_mapWithIndex (·.bias) (fun i node => { node with cachedOutput := inputs.getD i 0 })
    (·.bias) (fun _ _ => rfl) layer

/-- feedInputs does not change the injected functions, the multiplier, or
the layer structure sizes; its network is the input layer set to the inputs
followed by the forward propagation of the remaining layers. -/
theorem feedInputs_network (self : Network α) (inputs : List α)
    (l0 : List (Node α)) (rest : List (List (Node α)))
    (h : self.definition.network = l0 :: rest) :
    (self.feedInputs inputs).definition.network
      = setInputLayer inputs l0
        :: forwardLayers self.definition.activationFunction (setInputLayer inputs l0) rest := by
  simp [Network.feedInputs, h]

theorem feedInputs_feedInputs (self : Network α) (inputs inputs' : List α) :
    (self.feedInputs inputs').feedInputs inputs = self.feedInputs inputs := by
  unfold Network.feedInputs
  cases h : self.definition.network with
  | nil => simp [h]
  | cons l0 rest =>
    simp only [h, setInputLayer_setInputLayer, forwardLayers_forwardLayers]

/-! ### Backward pass lemmas -/

theorem length_backOutputLayer (errD : α → α → α) (actD : α → α) (mult : α)
    (expected p : List α) (layer : List (Node α)) :
    (backOutputLayer errD actD mult expected p layer).length = layer.length :=
  length_mapWithIndex _ layer

theorem length_backHiddenLayer (actD : α → α) (mult : α) (p : List α)
    (nextLayer layer : List (Node α)) :
    (backHiddenLayer actD mult p nextLayer layer).length = layer.length :=
  length_mapWithIndex _ layer

theorem length_backLayers (errD : α → α → α) (actD : α → α) (mult : α) (expected : List α) :
    ∀ (ls : List (List (Node α))) (p : List α),
      (backLayers errD actD mult expected p ls).length = ls.length := by
  intro ls
  induction ls with
  | nil => intro p; rfl
  | cons layer rest ih =>
    intro p
    cases rest with
    | nil => simp [backLayers, length_backOutputLayer]
    | cons next rest' => simp [backLayers, ih]

/-- Both backward blocks only rewrite the scratch fields cachedErrorWrtIn,
cachedWeightUpdates and cachedBiasUpdate of a node; any projection that
ignores those three fields is preserved by the whole backward phase. -/
theorem backOutputLayer_map {δ : Type} (g : Node α → δ)
    (hg : ∀ (node : Node α) (ew : α) (wu : List α) (bu : α),
      g { node with
            cachedErrorWrtIn := ew
            cachedWeightUpdates := wu
            cachedBiasUpdate := bu } = g node)
    (errD : α → α → α) (actD : α → α) (mult : α) (expected p : List α)
    (layer : List (Node α)) :
    (backOutputLayer errD actD mult expected p layer).map g = layer.map g :=
  map_mapWithIndex g _ g (fun _i node => hg node _ _ _) layer

theorem backHiddenLayer_map {δ : Type} (g : Node α → δ)
    (hg : ∀ (node : Node α) (ew : α) (wu : List α) (bu : α),
      g { node with
            cachedErrorWrtIn := ew
            cachedWeightUpdates := wu
            cachedBiasUpdate := bu } = g node)
    (actD : α → α) (mult : α) (p : List α) (nextLayer layer : List (Node α)) :
    (backHiddenLayer actD mult p nextLayer layer).map g = layer.map g :=
  map_mapWithIndex g _ g (fun _i node => hg node _ _ _) layer

theorem backLayers_map {δ : Type} (g : Node α → δ)
    (hg : ∀ (node : Node α) (ew : α) (wu : List α) (bu : α),
      g { node with
            cachedErrorWrtIn := ew
            cachedWeightUpdates := wu
            cachedBiasUpdate := bu } = g node)
    (errD : α → α → α) (actD : α → α) (mult : α) (expected : List α) :
    ∀ (ls : List (List (Node α))) (p : List α),
      (backLayers errD actD mult expected p ls).map (·.map g) = ls.map (·.map g) := by
  intro ls
  induction ls with
  | nil => intro p; rfl
  | cons layer rest ih =>
    intro p
    cases rest with
    | nil => simp [backLayers, backOutputLayer_map g hg]
    | cons next rest' =>
      simp only [backLayers, List.map_cons, backHiddenLayer_map g hg, ih]

/-- The apply loop only rewrites node.weights; any projection ignoring the
weights field is preserved. -/
theorem applyUpdates_map {δ : Type} (g : Node α → δ)
    (hg : ∀ (node : Node α) (ws : List α), g { node with weights := ws } = g node)
    (ls : List (List (Node α))) :
    (applyUpdates ls).map (·.map g) = ls.map (·.map g) := by
  simp only [applyUpdates, List.map_map]
  have : ((fun layer : List (Node α) => layer.map g) ∘ fun layer : List (Node α) =>
      layer.map fun node =>
        { node with
          weights := mapWithIndex (fun i w => w + node.cachedWeightUpdates.getD i 0) node.weights })
      = fun layer : List (Node α) => layer.map g := by
    funext layer
    simp only [Function.comp, List.map_map]
    exact List.map_congr_left (fun node _ => hg node _)
  rw [this]

theorem length_applyUpdates (ls : List (List (Node α))) :
    (applyUpdates ls).length = ls.length := by
  simp [applyUpdates]

theorem getD_map_map (f : Node α → Node α) (ls : List (List (Node α))) (l j : ℕ)
    (hl : l < ls.length) (hj : j < (ls.getD l []).length) (z z' : Node α) :
    ((ls.map (·.map f)).getD l []).getD j z = f ((ls.getD l []).getD j z') := by
  rw [getD_map_of_lt (·.map f) ls l hl [] []]
  exact getD_map_of_lt f _ j hj z z'

theorem backLayers_cons_eq (errD : α → α → α) (actD : α → α) (mult : α) (expected p : List α)
    (layer next : List (Node α)) (rest : List (List (Node α))) :
    backLayers errD actD mult expected p (layer :: next :: rest)
      = backHiddenLayer actD mult p
          ((backLayers errD actD mult expected (layer.map (·.cachedOutput)) (next :: rest)).getD 0 [])
          layer
        :: backLayers errD actD mult expected (layer.map (·.cachedOutput)) (next :: rest) :=
  rfl

/-- Structure of the backward phase: the layer at position l of the result
is the output-layer block if l is the last index, and otherwise the
hidden-layer block fed with the already-processed next layer; in both cases
the previous-layer outputs are those of the raw layer below (or the
provided list, below the first processed layer). -/
theorem backLayers_getD (errD : α → α → α) (actD : α → α) (mult : α) (expected : List α) :
    ∀ (ls : List (List (Node α))) (p : List α) (l : ℕ), l < ls.length →
      (backLayers errD actD mult expected p ls).getD l []
        = if l = ls.length - 1 then
            backOutputLayer errD actD mult expected
              (if l = 0 then p else (ls.getD (l - 1) []).map (·.cachedOutput)) (ls.getD l [])
          else
            backHiddenLayer actD mult
              (if l = 0 then p else (ls.getD (l - 1) []).map (·.cachedOutput))
              ((backLayers errD actD mult expected p ls).getD (l + 1) []) (ls.getD l []) := by
  intro ls
  induction ls with
  | nil => intro p l h; simp at h
  | cons layer rest ih =>
    intro p l h
    cases rest with
    | nil =>
      have hl0 : l = 0 := by simpa using h
      subst hl0
      simp [backLayers]
    | cons next rest' =>
      cases l with
      | zero =>
        rw [backLayers_cons_eq]
        have hcond : ¬((0 : ℕ) = (layer :: next :: rest').length - 1) := by
          simp
        simp only [List.getD_cons_zero, List.getD_cons_succ, hcond, if_false, if_true,
          if_pos rfl]
      | succ k =>
        have hk : k < (next :: rest').length := by simpa using h
        rw [backLayers_cons_eq, List.getD_cons_succ,
          ih (layer.map (·.cachedOutput)) k hk]
        have hprev : (if k = 0 then layer.map (·.cachedOutput)
              else ((next :: rest').getD (k - 1) []).map (·.cachedOutput))
            = ((layer :: next :: rest').getD k []).map (·.cachedOutput) := by
          cases k with
          | zero => simp
          | succ j => simp
        by_cases hlast : k = (next :: rest').length - 1
        · have hlast' : k + 1 = (layer :: next :: rest').length - 1 := by
            simp only [List.length_cons] at hlast ⊢
            omega
          rw [if_pos hlast, if_pos hlast', hprev]
          simp
        · have hlast' : ¬(k + 1 = (layer :: next :: rest').length - 1) := by
            simp only [List.length_cons] at hlast ⊢
            omega
          rw [if_neg hlast, if_neg hlast', hprev]
          simp [backLayers_cons_eq]

/-! ### Per-phase preservation lemmas -/

theorem setInputLayer_map {δ : Type} (g : Node α → δ)
    (hg : ∀ (node : Node α) (o : α), g { node with cachedOutput := o } = g node)
    (inputs : List α) (layer : List (Node α)) :
    (setInputLayer inputs layer).map g = layer.map g :=
  map_mapWithIndex g _ g (fun _i node => hg node _) layer

theorem layerForward_map {δ : Type} (g : Node α → δ)
    (hg : ∀ (node : Node α) (a b : α),
      g { node with cachedInput := a, cachedOutput := b } = g node)
    (act : α → α) (prev layer : List (Node α)) :
    (layerForward act prev layer).map g = layer.map g := by
  simp only [layerForward, List.map_map]
  exact List.map_congr_left (fun node _ => hg node _ _)

theorem forwardLayers_map {δ : Type} (g : Node α → δ)
    (hg : ∀ (node : Node α) (a b : α),
      g { node with cachedInput := a, cachedOutput := b } = g node)
    (act : α → α) :
    ∀ (ls : List (List (Node α))) (prev : List (Node α)),
      (forwardLayers act prev ls).map (·.map g) = ls.map (·.map g) := by
  intro ls
  induction ls with
  | nil => intro prev; rfl
  | cons layer rest ih =>
    intro prev
    simp only [forwardLayers, List.map_cons, layerForward_map g hg, ih]

theorem feedInputs_map {δ : Type} (g : Node α → δ)
    (hgOut : ∀ (node : Node α) (o : α), g { node with cachedOutput := o } = g node)
    (hgFwd : ∀ (node : Node α) (a b : α),
      g { node with cachedInput := a, cachedOutput := b } = g node)
    (self : Network α) (inputs : List α) :
    (self.feedInputs inputs).definition.network.map (·.map g)
      = self.definition.network.map (·.map g) := by
  unfold Network.feedInputs
  cases h : self.definition.network with
  | nil => simp
  | cons l0 rest =>
    simp only [List.map_cons, forwardLayers_map g hgFwd, setInputLayer_map g hgOut]

theorem proposeUpdates_map {δ : Type} (g : Node α → δ)
    (hg : ∀ (node : Node α) (ew : α) (wu : List α) (bu : α),
      g { node with
            cachedErrorWrtIn := ew
            cachedWeightUpdates := wu
            cachedBiasUpdate := bu } = g node)
    (self : Network α) (expected : List α) :
    (self.proposeUpdates expected).definition.network.map (·.map g)
      = self.definition.network.map (·.map g) := by
  unfold Network.proposeUpdates
  cases h : self.definition.network with
  | nil => simp
  | cons l0 rest =>
    simp only [List.map_cons, backLayers_map g hg]

/-! ### Structure of the composite operations -/

theorem proposeUpdates_network (self : Network α) (expected : List α)
    (l0 : List (Node α)) (rest : List (List (Node α)))
    (h : self.definition.network = l0 :: rest) :
    (self.proposeUpdates expected).definition.network
      = l0 :: backLayers self.definition.errorFunctionDerivative
          self.definition.activationFunctionDerivative self.definition.updateMultiplier
          expected (l0.map (·.cachedOutput)) rest := by
  simp [Network.proposeUpdates, h]

theorem trainingStep_network (self : Network α) (inputs expected : List α) :
    (self.trainingStep inputs expected).definition.network
      = applyUpdates ((self.feedInputs inputs).proposeUpdates expected).definition.network :=
  rfl

theorem applyUpdates_getD (ls : List (List (Node α))) (l : ℕ) (hl : l < ls.length) :
    (applyUpdates ls).getD l []
      = (ls.getD l []).map fun node =>
          { node with
            weights := mapWithIndex (fun i w => w + node.cachedWeightUpdates.getD i 0) node.weights } :=
  getD_map_of_lt _ ls l hl [] []

theorem feedInputs_activationFunction (self : Network α) (inputs : List α) :
    (self.feedInputs inputs).definition.activationFunction
      = self.definition.activationFunction := rfl

theorem feedInputs_activationFunctionDerivative (self : Network α) (inputs : List α) :
    (self.feedInputs inputs).definition.activationFunctionDerivative
      = self.definition.activationFunctionDerivative := rfl

theorem feedInputs_errorFunction (self : Network α) (inputs : List α) :
    (self.feedInputs inputs).definition.errorFunction = self.definition.errorFunction := rfl

theorem feedInputs_errorFunctionDerivative (self : Network α) (inputs : List α) :
    (self.feedInputs inputs).definition.errorFunctionDerivative
      = self.definition.errorFunctionDerivative := rfl

theorem feedInputs_updateMultiplier (self : Network α) (inputs : List α) :
    (self.feedInputs inputs).definition.updateMultiplier
      = self.definition.updateMultiplier := rfl

theorem proposeUpdates_updateMultiplier (self : Network α) (expected : List α) :
    (self.proposeUpdates expected).definition.updateMultiplier
      = self.definition.updateMultiplier := rfl

/-! ### Transfer of per-node facts through map-level equalities -/

theorem length_eq_of_map_layers {δ : Type} (g : Node α → δ) (A B : List (List (Node α)))
    (h : A.map (·.map g) = B.map (·.map g)) : A.length = B.length := by
  have := congrArg List.length h
  simpa using this

theorem layer_map_eq_of_map_layers {δ : Type} (g : Node α → δ) (A B : List (List (Node α)))
    (h : A.map (·.map g) = B.map (·.map g)) (l : ℕ) :
    (A.getD l []).map g = (B.getD l []).map g := by
  by_cases hl : l < A.length
  · have hB : l < B.length := length_eq_of_map_layers g A B h ▸ hl
    have h1 : (A.map (·.map g)).getD l [] = (B.map (·.map g)).getD l [] := by rw [h]
    rw [getD_map_of_lt (·.map g) A l hl [] [], getD_map_of_lt (·.map g) B l hB [] []] at h1
    exact h1
  · have hB : ¬(l < B.length) := by rw [← length_eq_of_map_layers g A B h]; exact hl
    rw [List.getD_eq_default _ _ (not_lt.mp hl), List.getD_eq_default _ _ (not_lt.mp hB)]

theorem layer_length_eq_of_map_layers {δ : Type} (g : Node α → δ) (A B : List (List (Node α)))
    (h : A.map (·.map g) = B.map (·.map g)) (l : ℕ) :
    (A.getD l []).length = (B.getD l []).length := by
  have := congrArg List.length (layer_map_eq_of_map_layers g A B h l)
  simpa using this

theorem getD_getD_of_map_eq {δ : Type} (g : Node α → δ) (A B : List (List (Node α)))
    (h : A.map (·.map g) = B.map (·.map g)) (l j : ℕ) (z : Node α) :
    g ((A.getD l []).getD j z) = g ((B.getD l []).getD j z) := by
  have h1 := layer_map_eq_of_map_layers g A B h l
  by_cases hj : j < (A.getD l []).length
  · have hjB : j < (B.getD l []).length := layer_length_eq_of_map_layers g A B h l ▸ hj
    have h2 : ((A.getD l []).map g).getD j (g z) = ((B.getD l []).map g).getD j (g z) := by
      rw [h1]
    rw [getD_map_of_lt g _ j hj (g z) z, getD_map_of_lt g _ j hjB (g z) z] at h2
    exact h2
  · have hjB : ¬(j < (B.getD l []).length) := by
      rw [← layer_length_eq_of_map_layers g A B h l]; exact hj
    rw [List.getD_eq_default _ _ (not_lt.mp hj), List.getD_eq_default _ _ (not_lt.mp hjB)]

theorem getD_map_cachedOutput (layer : List (Node α)) (j : ℕ) :
    (layer.map (·.cachedOutput)).getD j 0 = (layer.getD j (Network.node [] 0)).cachedOutput := by
  by_cases h : j < layer.length
  · exact getD_map_of_lt _ layer j h 0 (Network.node [] 0)
  · rw [List.getD_eq_default _ _ (by simpa using not_lt.mp h),
      List.getD_eq_default _ _ (not_lt.mp h)]
    rfl

/-! ### Preservation chains through the whole training step -/

theorem trainingStep_bias_map (self : Network α) (inputs expected : List α) :
    (self.trainingStep inputs expected).definition.network.map (·.map (·.bias))
      = self.definition.network.map (·.map (·.bias)) := by
  rw [trainingStep_network, applyUpdates_map (·.bias) (fun _ _ => rfl),
    proposeUpdates_map (·.bias) (fun _ _ _ _ => rfl),
    feedInputs_map (·.bias) (fun _ _ => rfl) (fun _ _ _ => rfl)]

theorem proposed_weights_map (self : Network α) (inputs expected : List α) :
    ((self.feedInputs inputs).proposeUpdates expected).definition.network.map (·.map (·.weights))
      = self.definition.network.map (·.map (·.weights)) := by
  rw [proposeUpdates_map (·.weights) (fun _ _ _ _ => rfl),
    feedInputs_map (·.weights) (fun _ _ => rfl) (fun _ _ _ => rfl)]

theorem trainingStep_forward_map (self : Network α) (inputs expected : List α) :
    (self.trainingStep inputs expected).definition.network.map
        (·.map (fun n => (n.cachedInput, n.cachedOutput)))
      = (self.feedInputs inputs).definition.network.map
          (·.map (fun n => (n.cachedInput, n.cachedOutput))) := by
  rw [trainingStep_network,
    applyUpdates_map (fun n => (n.cachedInput, n.cachedOutput)) (fun _ _ => rfl),
    proposeUpdates_map (fun n => (n.cachedInput, n.cachedOutput)) (fun _ _ _ _ => rfl)]

theorem trainingStep_scratch_map (self : Network α) (inputs expected : List α) :
    (self.trainingStep inputs expected).definition.network.map
        (·.map (fun n => (n.cachedErrorWrtIn, n.cachedWeightUpdates, n.cachedBiasUpdate)))
      = ((self.feedInputs inputs).proposeUpdates expected).definition.network.map
          (·.map (fun n => (n.cachedErrorWrtIn, n.cachedWeightUpdates, n.cachedBiasUpdate))) := by
  rw [trainingStep_network,
    applyUpdates_map (fun n => (n.cachedErrorWrtIn, n.cachedWeightUpdates, n.cachedBiasUpdate))
      (fun _ _ => rfl)]

/-! ### Node-level description of the two backward blocks -/

theorem backOutputLayer_getD_errorWrtIn (errD : α → α → α) (actD : α → α) (mult : α)
    (expected p : List α) (layer : List (Node α)) (j : ℕ) (hj : j < layer.length)
    (z z' : Node α) :
    ((backOutputLayer errD actD mult expected p layer).getD j z).cachedErrorWrtIn
      = errD (layer.getD j z').cachedOutput (expected.getD j 0)
          * actD (layer.getD j z').cachedInput := by
  rw [backOutputLayer, getD_mapWithIndex _ z z' j layer hj]

theorem backOutputLayer_getD_weightUpdates (errD : α → α → α) (actD : α → α) (mult : α)
    (expected p : List α) (layer : List (Node α)) (j : ℕ) (hj : j < layer.length)
    (z z' : Node α) :
    ((backOutputLayer errD actD mult expected p layer).getD j z).cachedWeightUpdates
      = mapWithIndex (fun _k _w =>
          -(errD (layer.getD j z').cachedOutput (expected.getD j 0)
              * actD (layer.getD j z').cachedInput * p.getD _k 0 * mult))
          (layer.getD j z').weights := by
  rw [backOutputLayer, getD_mapWithIndex _ z z' j layer hj]

theorem backOutputLayer_getD_biasUpdate (errD : α → α → α) (actD : α → α) (mult : α)
    (expected p : List α) (layer : List (Node α)) (j : ℕ) (hj : j < layer.length)
    (z z' : Node α) :
    ((backOutputLayer errD actD mult expected p layer).getD j z).cachedBiasUpdate
      = errD (layer.getD j z').cachedOutput (expected.getD j 0)
          * actD (layer.getD j z').cachedInput * 1 * mult := by
  rw [backOutputLayer, getD_mapWithIndex _ z z' j layer hj]

theorem backHiddenLayer_getD_errorWrtIn (actD : α → α) (mult : α) (p : List α)
    (nextLayer layer : List (Node α)) (j : ℕ) (hj : j < layer.length) (z z' : Node α) :
    ((backHiddenLayer actD mult p nextLayer layer).getD j z).cachedErrorWrtIn
      = nextErrorSum nextLayer j * actD (layer.getD j z').cachedInput := by
  rw [backHiddenLayer, getD_mapWithIndex _ z z' j layer hj]

theorem backHiddenLayer_getD_weightUpdates (actD : α → α) (mult : α) (p : List α)
    (nextLayer layer : List (Node α)) (j : ℕ) (hj : j < layer.length) (z z' : Node α) :
    ((backHiddenLayer actD mult p nextLayer layer).getD j z).cachedWeightUpdates
      = mapWithIndex (fun _k _w =>
          -1 * (nextErrorSum nextLayer j * actD (layer.getD j z').cachedInput)
            * p.getD _k 0 * mult) (layer.getD j z').weights := by
  rw [backHiddenLayer, getD_mapWithIndex _ z z' j layer hj]

theorem backHiddenLayer_getD_biasUpdate (actD : α → α) (mult : α) (p : List α)
    (nextLayer layer : List (Node α)) (j : ℕ) (hj : j < layer.length) (z z' : Node α) :
    ((backHiddenLayer actD mult p nextLayer layer).getD j z).cachedBiasUpdate
      = nextErrorSum nextLayer j * actD (layer.getD j z').cachedInput * 1 * mult := by
  rw [backHiddenLayer, getD_mapWithIndex _ z z' j layer hj]

/-! ### Length bookkeeping -/

theorem fed_bias_map (self : Network α) (inputs : List α) :
    (self.feedInputs inputs).definition.network.map (·.map (·.bias))
      = self.definition.network.map (·.map (·.bias)) :=
  feedInputs_map (·.bias) (fun _ _ => rfl) (fun _ _ _ => rfl) self inputs

theorem proposed_bias_map (self : Network α) (inputs expected : List α) :
    ((self.feedInputs inputs).proposeUpdates expected).definition.network.map (·.map (·.bias))
      = self.definition.network.map (·.map (·.bias)) := by
  rw [proposeUpdates_map (·.bias) (fun _ _ _ _ => rfl), fed_bias_map]

theorem fed_network_length (self : Network α) (inputs : List α) :
    (self.feedInputs inputs).definition.network.length = self.definition.network.length :=
  length_eq_of_map_layers (·.bias) _ _ (fed_bias_map self inputs)

theorem fed_layer_length (self : Network α) (inputs : List α) (l : ℕ) :
    ((self.feedInputs inputs).definition.network.getD l []).length
      = (self.definition.network.getD l []).length :=
  layer_length_eq_of_map_layers (·.bias) _ _ (fed_bias_map self inputs) l

theorem proposed_network_length (self : Network α) (inputs expected : List α) :
    ((self.feedInputs inputs).proposeUpdates expected).definition.network.length
      = self.definition.network.length :=
  length_eq_of_map_layers (·.bias) _ _ (proposed_bias_map self inputs expected)

theorem proposed_layer_length (self : Network α) (inputs expected : List α) (l : ℕ) :
    (((self.feedInputs inputs).proposeUpdates expected).definition.network.getD l []).length
      = (self.definition.network.getD l []).length :=
  layer_length_eq_of_map_layers (·.bias) _ _ (proposed_bias_map self inputs expected) l

/-! ### Claim C5 -/

/-- C5: trainingStep never changes any node's bias field: the apply phase
only rewrites weights, while the proposed bias update is computed and
stored in the node's scratch state (for every non-input node the final
cachedBiasUpdate equals its cachedErrorWrtIn times the update multiplier,
exactly the proposal the source computes) but is never added to bias. -/
theorem c5_bias_unchanged (self : Network α) (inputs expected : List α) :
    biasMatrix (self.trainingStep inputs expected) = biasMatrix self
    ∧ ∀ l j, 1 ≤ l → l < self.definition.network.length →
        j < (self.definition.network.getD l []).length →
        (nodeAt (self.trainingStep inputs expected) l j).cachedBiasUpdate
          = (nodeAt (self.trainingStep inputs expected) l j).cachedErrorWrtIn
            * self.definition.updateMultiplier := by
  constructor
  · unfold biasMatrix
    exact trainingStep_bias_map self inputs expected
  · intro l j hl1 hl2 hj
    have hscr := getD_getD_of_map_eq
      (fun n => (n.cachedErrorWrtIn, n.cachedWeightUpdates, n.cachedBiasUpdate))
      _ _ (trainingStep_scratch_map self inputs expected) l j (Network.node [] 0)
    have hbu : (nodeAt (self.trainingStep inputs expected) l j).cachedBiasUpdate
        = (nodeAt ((self.feedInputs inputs).proposeUpdates expected) l j).cachedBiasUpdate :=
      congrArg (fun t => t.2.2) hscr
    have hew : (nodeAt (self.trainingStep inputs expected) l j).cachedErrorWrtIn
        = (nodeAt ((self.feedInputs inputs).proposeUpdates expected) l j).cachedErrorWrtIn :=
      congrArg (fun t => t.1) hscr
    rw [hbu, hew]
    cases hnet : self.definition.network with
    | nil => rw [hnet] at hl2; simp at hl2
    | cons l0 rest =>
      have hfed := feedInputs_network self inputs l0 rest hnet
      have hprop := proposeUpdates_network (self.feedInputs inputs) expected _ _ hfed
      cases l with
      | zero => omega
      | succ k =>
        have hk : k < rest.length := by
          rw [hnet] at hl2
          simpa using hl2
        have hkf : k < (forwardLayers self.definition.activationFunction
            (setInputLayer inputs l0) rest).length := by
          rw [length_forwardLayers]; exact hk
        have hjf : j < ((forwardLayers self.definition.activationFunction
            (setInputLayer inputs l0) rest).getD k []).length := by
          have h1 := fed_layer_length self inputs (k + 1)
          rw [hfed] at h1
          simp only [List.getD_cons_succ] at h1
          rw [h1]
          exact hj
        unfold nodeAt
        rw [hprop]
        simp only [List.getD_cons_succ, feedInputs_errorFunctionDerivative,
          feedInputs_activationFunctionDerivative, feedInputs_updateMultiplier]
        rw [backLayers_getD _ _ _ _ _ _ k hkf]
        by_cases hlast : k = (forwardLayers self.definition.activationFunction
            (setInputLayer inputs l0) rest).length - 1
        · rw [if_pos hlast]
          rw [backOutputLayer_getD_biasUpdate _ _ _ _ _ _ j hjf _ (Network.node [] 0),
            backOutputLayer_getD_errorWrtIn _ _ _ _ _ _ j hjf _ (Network.node [] 0)]
          ring
        · rw [if_neg hlast]
          rw [backHiddenLayer_getD_biasUpdate _ _ _ _ _ j hjf _ (Network.node [] 0),
            backHiddenLayer_getD_errorWrtIn _ _ _ _ _ j hjf _ (Network.node [] 0)]
          ring

theorem c5_bias_unchanged_witness :
    (1 ≤ 1 ∧ 1 < witnessNetwork.definition.network.length
      ∧ 0 < (witnessNetwork.definition.network.getD 1 []).length)
    ∧ (nodeAt (witnessNetwork.trainingStep [1, 2] [3]) 1 0).cachedBiasUpdate
        = (nodeAt (witnessNetwork.trainingStep [1, 2] [3]) 1 0).cachedErrorWrtIn
          * witnessNetwork.definition.updateMultiplier :=
  ⟨⟨le_refl 1, by decide, by decide⟩,
    (c5_bias_unchanged witnessNetwork [1, 2] [3]).2 1 0 (le_refl 1) (by decide) (by decide)⟩

/-! ### Claim C10 -/

theorem trainingStep_out_map (self : Network α) (inputs expected : List α) :
    (self.trainingStep inputs expected).definition.network.map (·.map (·.cachedOutput))
      = (self.feedInputs inputs).definition.network.map (·.map (·.cachedOutput)) := by
  rw [trainingStep_network, applyUpdates_map (·.cachedOutput) (fun _ _ => rfl),
    proposeUpdates_map (·.cachedOutput) (fun _ _ _ _ => rfl)]

theorem option_map_getD_nil {δ : Type} (F : List (Node α) → List δ) (hF : F [] = [])
    (o : Option (List (Node α))) : (o.map F).getD [] = F (o.getD []) := by
  cases o with
  | none => simp [hF]
  | some layer => simp

theorem last_out_map_eq (A B : List (List (Node α)))
    (h : A.map (·.map (·.cachedOutput)) = B.map (·.map (·.cachedOutput))) :
    (A.getLast?.getD []).map (·.cachedOutput) = (B.getLast?.getD []).map (·.cachedOutput) := by
  have h2 : (A.map (·.map (·.cachedOutput))).getLast? = (B.map (·.map (·.cachedOutput))).getLast? := by
    rw [h]
  rw [List.getLast?_map, List.getLast?_map] at h2
  have h3 : (A.getLast?.map (·.map (·.cachedOutput))).getD []
      = (B.getLast?.map (·.map (·.cachedOutput))).getD [] := by rw [h2]
  rw [option_map_getD_nil _ rfl, option_map_getD_nil _ rfl] at h3
  exact h3

theorem totalErrorFrom_congr (errF : α → α → α) (expected : List α) :
    ∀ (A B : List (Node α)), A.map (·.cachedOutput) = B.map (·.cachedOutput) →
      ∀ (acc : α) (i : ℕ), totalErrorFrom errF expected acc i A
        = totalErrorFrom errF expected acc i B := by
  intro A
  induction A with
  | nil =>
    intro B h acc i
    cases B with
    | nil => rfl
    | cons b B => simp at h
  | cons a A ih =>
    intro B h acc i
    cases B with
    | nil => simp at h
    | cons b B =>
      simp only [List.map_cons, List.cons.injEq] at h
      rw [totalErrorFrom, totalErrorFrom, h.1]
      exact ih B h.2 _ _

/-- C10: immediately after trainingStep the cached forward values of every
node are still those computed by the forward pass with the pre-step weights
(the weight updates are applied afterwards and the forward pass is not
re-run), so outputs() and totalError() after the step report the values of
the pre-update network. -/
theorem c10_caches_pre_update (self : Network α) (inputs expected : List α) :
    forwardCache (self.trainingStep inputs expected) = forwardCache (self.feedInputs inputs)
    ∧ (self.trainingStep inputs expected).outputs = (self.feedInputs inputs).outputs
    ∧ ∀ expected2 : List α,
        (self.trainingStep inputs expected).totalError expected2
          = (self.feedInputs inputs).totalError expected2 := by
  refine ⟨?_, ?_, ?_⟩
  · unfold forwardCache
    exact trainingStep_forward_map self inputs expected
  · unfold Network.outputs
    exact last_out_map_eq _ _ (trainingStep_out_map self inputs expected)
  · intro expected2
    unfold Network.totalError
    have hout := last_out_map_eq _ _ (trainingStep_out_map self inputs expected)
    exact totalErrorFrom_congr _ expected2 _ _ hout 0 0

/-! ### Claim C3 -/

/-- C3: trainingStep is two-phase.  First, the whole propose phase (forward
pass plus backward proposal computation) leaves every weight of every node
exactly as it was before the call, which is why every hidden-layer fan-in
sum reads original, pre-update weights of the next layer; only then does
the apply loop rewrite each weight to weights[k] + pendingWeightUpdates[k]. -/
theorem c3_two_phase (self : Network α) (inputs expected : List α) :
    weightsMatrix ((self.feedInputs inputs).proposeUpdates expected) = weightsMatrix self
    ∧ ∀ l j k, l < self.definition.network.length →
        j < (self.definition.network.getD l []).length →
        k < (nodeAt ((self.feedInputs inputs).proposeUpdates expected) l j).weights.length →
        (nodeAt (self.trainingStep inputs expected) l j).weights.getD k 0
          = (nodeAt ((self.feedInputs inputs).proposeUpdates expected) l j).weights.getD k 0
            + (nodeAt ((self.feedInputs inputs).proposeUpdates expected) l j).cachedWeightUpdates.getD k 0 := by
  constructor
  · unfold weightsMatrix
    exact proposed_weights_map self inputs expected
  · intro l j k hl hj hk
    have hlp : l < ((self.feedInputs inputs).proposeUpdates expected).definition.network.length := by
      rw [proposed_network_length]; exact hl
    have hjp : j < ((((self.feedInputs inputs).proposeUpdates expected).definition.network).getD l []).length := by
      rw [proposed_layer_length]; exact hj
    unfold nodeAt at hk ⊢
    rw [trainingStep_network, applyUpdates_getD _ l hlp,
      getD_map_of_lt _ _ j hjp (Network.node [] 0) (Network.node [] 0)]
    exact getD_mapWithIndex _ (0 : α) (0 : α) k _ hk

theorem c3_two_phase_witness :
    (2 < witnessNetwork.definition.network.length
      ∧ 0 < (witnessNetwork.definition.network.getD 2 []).length
      ∧ 1 < (nodeAt ((witnessNetwork.feedInputs [1, 2]).proposeUpdates [3]) 2 0).weights.length)
    ∧ (nodeAt (witnessNetwork.trainingStep [1, 2] [3]) 2 0).weights.getD 1 0
        = (nodeAt ((witnessNetwork.feedInputs [1, 2]).proposeUpdates [3]) 2 0).weights.getD 1 0
          + (nodeAt ((witnessNetwork.feedInputs [1, 2]).proposeUpdates [3]) 2 0).cachedWeightUpdates.getD 1 0 :=
  ⟨⟨by decide, by decide, by decide⟩,
    (c3_two_phase witnessNetwork [1, 2] [3]).2 2 0 1 (by decide) (by decide) (by decide)⟩

/-! ### Claim C7 -/

theorem getLast_getD_eq {δ : Type} : ∀ (L : List δ) (d : δ),
    L.getLast?.getD d = L.getD (L.length - 1) d := by
  intro L
  induction L with
  | nil => intro d; rfl
  | cons a t ih =>
    intro d
    cases t with
    | nil => rfl
    | cons b t' =>
      rw [List.getLast?_cons_cons]
      simp only [List.length_cons]
      rw [show a :: b :: t' = a :: (b :: t') from rfl, show t'.length + 1 + 1 - 1 = t'.length + 1 from by omega,
        List.getD_cons_succ]
      simpa using ih d

/-- C7: totalError(expected) is the sum, in output-node order, of the
injected error function applied to each output node's cached output and the
matching entry of expected; its return type shows it is a pure read that
mutates nothing and runs no forward pass. -/
theorem c7_totalError_sum (self : Network α) (expected : List α) :
    self.totalError expected
      = ∑ k in Finset.range
          ((self.definition.network.getD (self.definition.network.length - 1) []).length),
          self.definition.errorFunction
            (nodeAt self (self.definition.network.length - 1) k).cachedOutput
            (expected.getD k 0) := by
  unfold Network.totalError nodeAt
  rw [getLast_getD_eq, totalErrorFrom_eq]
  simp

/-! ### Claim C4 -/

theorem weightedSum_spec (outs ws : List α) :
    weightedSumFrom outs 0 0 ws
      = ∑ k in Finset.range ws.length, ws.getD k 0 * outs.getD k 0 := by
  rw [weightedSumFrom_eq, zero_add]
  exact Finset.sum_congr rfl (fun k _ => by rw [Nat.zero_add]; ring)

/-- C4: feedInputs sets each input-layer node's cached output directly to
the matching input value (no activation applied), and gives every node of
each subsequent layer cachedInput equal to the weighted sum of the previous
layer's cached outputs plus the bias, with cachedOutput the activation of
that input; moreover a forward pass completely overwrites the forward
caches written by any previous call: feeding inputs after an earlier
feedInputs yields exactly the state of feeding them directly. -/
theorem c4_feedInputs_forward (self : Network α) (inputs : List α) :
    (∀ j, j < (self.definition.network.getD 0 []).length → j < inputs.length →
      (nodeAt (self.feedInputs inputs) 0 j).cachedOutput = inputs.getD j 0)
    ∧ (∀ l j, l + 1 < self.definition.network.length →
        j < (self.definition.network.getD (l + 1) []).length →
        (nodeAt (self.feedInputs inputs) (l + 1) j).cachedInput
          = (∑ k in Finset.range ((nodeAt (self.feedInputs inputs) (l + 1) j).weights.length),
              (nodeAt (self.feedInputs inputs) (l + 1) j).weights.getD k 0
                * (layerOutputsAt (self.feedInputs inputs) l).getD k 0)
            + (nodeAt (self.feedInputs inputs) (l + 1) j).bias
        ∧ (nodeAt (self.feedInputs inputs) (l + 1) j).cachedOutput
          = self.definition.activationFunction
              ((nodeAt (self.feedInputs inputs) (l + 1) j).cachedInput))
    ∧ ∀ inputs2 : List α, (self.feedInputs inputs2).feedInputs inputs = self.feedInputs inputs := by
  refine ⟨?_, ?_, fun inputs2 => feedInputs_feedInputs self inputs inputs2⟩
  · intro j hj hj2
    cases hnet : self.definition.network with
    | nil => rw [hnet] at hj; simp at hj
    | cons l0 rest =>
      have hj0 : j < l0.length := by rw [hnet] at hj; simpa using hj
      unfold nodeAt
      rw [feedInputs_network self inputs l0 rest hnet]
      simp only [List.getD_cons_zero]
      rw [setInputLayer, getD_mapWithIndex _ (Network.node [] 0) (Network.node [] 0) j l0 hj0]
  · intro l j hl hj
    cases hnet : self.definition.network with
    | nil => rw [hnet] at hl; simp at hl
    | cons l0 rest =>
      have hlr : l < rest.length := by rw [hnet] at hl; simpa using hl
      have hjr : j < (rest.getD l []).length := by rw [hnet] at hj; simpa using hj
      unfold nodeAt layerOutputsAt
      rw [feedInputs_network self inputs l0 rest hnet]
      simp only [List.getD_cons_succ]
      rw [forwardLayers_getD _ rest _ l hlr]
      rw [layerForward, getD_map_of_lt _ _ j hjr (Network.node [] 0) (Network.node [] 0)]
      refine ⟨?_, rfl⟩
      show weightedSumFrom _ 0 0 _ + _ = _
      rw [weightedSum_spec]

/-! ### Claim C1 -/

/-- C1: during trainingStep, run after the forward pass, every output-layer
node i stores errorWrtInput = errorDerivative(lastOutput, expected[i]) *
activationDerivative(lastInput); each proposed weight update j equals
-(errorWrtIn * previousLayer[j].lastOutput * learningRate); and the
proposed bias update equals +errorWrtIn * learningRate, the opposite sign
convention to the weight updates. -/
theorem c1_output_layer (self : Network α) (inputs expected : List α)
    (hL : 2 ≤ self.definition.network.length) (i : ℕ)
    (hi : i < (self.definition.network.getD (self.definition.network.length - 1) []).length) :
    (nodeAt (self.trainingStep inputs expected)
        (self.definition.network.length - 1) i).cachedErrorWrtIn
      = outputErrorWrtIn self inputs expected i
    ∧ (∀ j, j < (nodeAt (self.feedInputs inputs)
          (self.definition.network.length - 1) i).weights.length →
        (nodeAt (self.trainingStep inputs expected)
            (self.definition.network.length - 1) i).cachedWeightUpdates.getD j 0
          = -(outputErrorWrtIn self inputs expected i
              * (nodeAt (self.feedInputs inputs)
                  (self.definition.network.length - 2) j).cachedOutput
              * self.definition.updateMultiplier))
    ∧ (nodeAt (self.trainingStep inputs expected)
          (self.definition.network.length - 1) i).cachedBiasUpdate
        = outputErrorWrtIn self inputs expected i * self.definition.updateMultiplier := by
  cases hnet : self.definition.network with
  | nil => rw [hnet] at hL; simp at hL
  | cons l0 rest =>
    rw [← hnet]
    have hrest : 1 ≤ rest.length := by
      rw [hnet] at hL
      simpa using hL
    have hk1 : self.definition.network.length - 1 = (rest.length - 1) + 1 := by
      rw [hnet]; simp; omega
    have hk2 : self.definition.network.length - 2 = rest.length - 1 := by
      rw [hnet]; simp
    have hfed := feedInputs_network self inputs l0 rest hnet
    have hprop := proposeUpdates_network (self.feedInputs inputs) expected _ _ hfed
    simp only [feedInputs_errorFunctionDerivative, feedInputs_activationFunctionDerivative,
      feedInputs_updateMultiplier] at hprop
    have hkB : rest.length - 1 < (forwardLayers self.definition.activationFunction
        (setInputLayer inputs l0) rest).length := by
      rw [length_forwardLayers]; omega
    have hcond : rest.length - 1 = (forwardLayers self.definition.activationFunction
        (setInputLayer inputs l0) rest).length - 1 := by
      rw [length_forwardLayers]
    have hlayer : (forwardLayers self.definition.activationFunction
          (setInputLayer inputs l0) rest).getD (rest.length - 1) []
        = (self.feedInputs inputs).definition.network.getD ((rest.length - 1) + 1) [] := by
      rw [hfed, List.getD_cons_succ]
    have hprev : (if rest.length - 1 = 0 then (setInputLayer inputs l0).map (·.cachedOutput)
          else ((forwardLayers self.definition.activationFunction
              (setInputLayer inputs l0) rest).getD (rest.length - 1 - 1) []).map (·.cachedOutput))
        = ((self.feedInputs inputs).definition.network.getD (rest.length - 1) []).map
            (·.cachedOutput) := by
      cases hc : rest.length - 1 with
      | zero => rw [if_pos rfl, hfed]; rfl
      | succ m => rw [if_neg (by omega), hfed]; simp
    have hifed : i < ((self.feedInputs inputs).definition.network.getD
        ((rest.length - 1) + 1) []).length := by
      rw [fed_layer_length]
      rw [hk1] at hi
      exact hi
    have hpnode : ((((self.feedInputs inputs).proposeUpdates expected).definition.network.getD
            ((rest.length - 1) + 1) []).getD i (Network.node [] 0))
        = ((backOutputLayer self.definition.errorFunctionDerivative
              self.definition.activationFunctionDerivative self.definition.updateMultiplier
              expected
              (((self.feedInputs inputs).definition.network.getD (rest.length - 1) []).map
                (·.cachedOutput))
              ((self.feedInputs inputs).definition.network.getD ((rest.length - 1) + 1) [])).getD
            i (Network.node [] 0)) := by
      rw [hprop, List.getD_cons_succ,
        backLayers_getD _ _ _ _ _ _ (rest.length - 1) hkB, if_pos hcond, hprev, hlayer]
    have hscr := fun l j => getD_getD_of_map_eq
      (fun n => (n.cachedErrorWrtIn, n.cachedWeightUpdates, n.cachedBiasUpdate))
      _ _ (trainingStep_scratch_map self inputs expected) l j (Network.node [] 0)
    refine ⟨?_, ?_, ?_⟩
    · have h1 : (((self.trainingStep inputs expected).definition.network.getD
            ((rest.length - 1) + 1) []).getD i (Network.node [] 0)).cachedErrorWrtIn
          = ((((self.feedInputs inputs).proposeUpdates expected).definition.network.getD
            ((rest.length - 1) + 1) []).getD i (Network.node [] 0)).cachedErrorWrtIn :=
        congrArg (fun t => t.1) (hscr ((rest.length - 1) + 1) i)
      unfold outputErrorWrtIn nodeAt
      rw [hk1, h1, hpnode,
        backOutputLayer_getD_errorWrtIn _ _ _ _ _ _ i hifed _ (Network.node [] 0)]
    · intro j hj
      have h1 : (((self.trainingStep inputs expected).definition.network.getD
            ((rest.length - 1) + 1) []).getD i (Network.node [] 0)).cachedWeightUpdates
          = ((((self.feedInputs inputs).proposeUpdates expected).definition.network.getD
            ((rest.length - 1) + 1) []).getD i (Network.node [] 0)).cachedWeightUpdates :=
        congrArg (fun t => t.2.1) (hscr ((rest.length - 1) + 1) i)
      unfold nodeAt at hj
      rw [hk1] at hj
      unfold outputErrorWrtIn nodeAt
      rw [hk1, hk2, h1, hpnode,
        backOutputLayer_getD_weightUpdates _ _ _ _ _ _ i hifed _ (Network.node [] 0),
        getD_mapWithIndex _ (0 : α) (0 : α) j _ hj, getD_map_cachedOutput]
    · have h1 : (((self.trainingStep inputs expected).definition.network.getD
            ((rest.length - 1) + 1) []).getD i (Network.node [] 0)).cachedBiasUpdate
          = ((((self.feedInputs inputs).proposeUpdates expected).definition.network.getD
            ((rest.length - 1) + 1) []).getD i (Network.node [] 0)).cachedBiasUpdate :=
        congrArg (fun t => t.2.2) (hscr ((rest.length - 1) + 1) i)
      unfold outputErrorWrtIn nodeAt
      rw [hk1, h1, hpnode,
        backOutputLayer_getD_biasUpdate _ _ _ _ _ _ i hifed _ (Network.node [] 0)]
      ring

theorem c1_output_layer_witness :
    (2 ≤ witnessNetwork.definition.network.length
      ∧ 0 < (witnessNetwork.definition.network.getD
          (witnessNetwork.definition.network.length - 1) []).length
      ∧ 0 < (nodeAt (witnessNetwork.feedInputs [1, 2])
          (witnessNetwork.definition.network.length - 1) 0).weights.length)
    ∧ (nodeAt (witnessNetwork.trainingStep [1, 2] [3])
          (witnessNetwork.definition.network.length - 1) 0).cachedErrorWrtIn
        = outputErrorWrtIn witnessNetwork [1, 2] [3] 0
    ∧ (nodeAt (witnessNetwork.trainingStep [1, 2] [3])
          (witnessNetwork.definition.network.length - 1) 0).cachedWeightUpdates.getD 0 0
        = -(outputErrorWrtIn witnessNetwork [1, 2] [3] 0
            * (nodeAt (witnessNetwork.feedInputs [1, 2])
                (witnessNetwork.definition.network.length - 2) 0).cachedOutput
            * witnessNetwork.definition.updateMultiplier)
    ∧ (nodeAt (witnessNetwork.trainingStep [1, 2] [3])
          (witnessNetwork.definition.network.length - 1) 0).cachedBiasUpdate
        = outputErrorWrtIn witnessNetwork [1, 2] [3] 0
          * witnessNetwork.definition.updateMultiplier :=
  ⟨⟨by decide, by decide, by decide⟩,
    (c1_output_layer witnessNetwork [1, 2] [3] (by decide) 0 (by decide)).1,
    (c1_output_layer witnessNetwork [1, 2] [3] (by decide) 0 (by decide)).2.1 0 (by decide),
    (c1_output_layer witnessNetwork [1, 2] [3] (by decide) 0 (by decide)).2.2⟩

/-! ### Claim C2 -/

theorem getD_of_map_eq_list {δ : Type} (g : Node α → δ) (A B : List (Node α))
    (h : A.map g = B.map g) (j : ℕ) (z : Node α) : g (A.getD j z) = g (B.getD j z) := by
  have hlen : A.length = B.length := by
    have := congrArg List.length h
    simpa using this
  by_cases hj : j < A.length
  · have hjB : j < B.length := hlen ▸ hj
    have h2 : (A.map g).getD j (g z) = (B.map g).getD j (g z) := by rw [h]
    rw [getD_map_of_lt g _ j hj (g z) z, getD_map_of_lt g _ j hjB (g z) z] at h2
    exact h2
  · rw [List.getD_eq_default _ _ (not_lt.mp hj),
      List.getD_eq_default _ _ (not_lt.mp (hlen ▸ hj))]

/-- C2: every hidden-layer node at position i gets, during trainingStep,
errorWrtInput equal to (the sum over every node k of the next layer of that
node's cached errorWrtInput times its i-th weight, the weight connecting
this node to it, read from the original pre-update weights) times
activationDerivative(lastInput); layers are processed in strictly reverse
order down to, but excluding, the input layer, whose scratch fields are
left untouched. -/
theorem c2_hidden_layer (self : Network α) (inputs expected : List α) (l i : ℕ)
    (hl1 : 1 ≤ l) (hl2 : l + 1 < self.definition.network.length)
    (hi : i < (self.definition.network.getD l []).length) :
    (nodeAt (self.trainingStep inputs expected) l i).cachedErrorWrtIn
      = (∑ k in Finset.range ((self.definition.network.getD (l + 1) []).length),
          (nodeAt (self.trainingStep inputs expected) (l + 1) k).cachedErrorWrtIn
            * (nodeAt self (l + 1) k).weights.getD i 0)
        * self.definition.activationFunctionDerivative
            ((nodeAt (self.feedInputs inputs) l i).cachedInput)
    ∧ ∀ j, (nodeAt (self.trainingStep inputs expected) 0 j).cachedErrorWrtIn
          = (nodeAt self 0 j).cachedErrorWrtIn
        ∧ (nodeAt (self.trainingStep inputs expected) 0 j).cachedWeightUpdates
          = (nodeAt self 0 j).cachedWeightUpdates
        ∧ (nodeAt (self.trainingStep inputs expected) 0 j).cachedBiasUpdate
          = (nodeAt self 0 j).cachedBiasUpdate := by
  cases hnet : self.definition.network with
  | nil => rw [hnet] at hl2; simp at hl2
  | cons l0 rest =>
    rw [← hnet]
    have hfed := feedInputs_network self inputs l0 rest hnet
    have hprop := proposeUpdates_network (self.feedInputs inputs) expected _ _ hfed
    simp only [feedInputs_errorFunctionDerivative, feedInputs_activationFunctionDerivative,
      feedInputs_updateMultiplier] at hprop
    have hscr := fun l j => getD_getD_of_map_eq
      (fun n => (n.cachedErrorWrtIn, n.cachedWeightUpdates, n.cachedBiasUpdate))
      _ _ (trainingStep_scratch_map self inputs expected) l j (Network.node [] 0)
    constructor
    · cases l with
      | zero => omega
      | succ m =>
        have hmr : m + 1 < rest.length := by
          rw [hnet] at hl2
          simpa using hl2
        have hkB : m < (forwardLayers self.definition.activationFunction
            (setInputLayer inputs l0) rest).length := by
          rw [length_forwardLayers]; omega
        have hcond : ¬(m = (forwardLayers self.definition.activationFunction
            (setInputLayer inputs l0) rest).length - 1) := by
          rw [length_forwardLayers]; omega
        have hlayer : (forwardLayers self.definition.activationFunction
              (setInputLayer inputs l0) rest).getD m []
            = (self.feedInputs inputs).definition.network.getD (m + 1) [] := by
          rw [hfed, List.getD_cons_succ]
        have hprev : (if m = 0 then (setInputLayer inputs l0).map (·.cachedOutput)
              else ((forwardLayers self.definition.activationFunction
                  (setInputLayer inputs l0) rest).getD (m - 1) []).map (·.cachedOutput))
            = ((self.feedInputs inputs).definition.network.getD m []).map (·.cachedOutput) := by
          cases m with
          | zero => rw [if_pos rfl, hfed]; rfl
          | succ m' => rw [if_neg (by omega), hfed]; simp
        have hifed : i < ((self.feedInputs inputs).definition.network.getD (m + 1) []).length := by
          rw [fed_layer_length]
          exact hi
        have hpnode : ((((self.feedInputs inputs).proposeUpdates expected).definition.network.getD
                (m + 1) []).getD i (Network.node [] 0))
            = ((backHiddenLayer self.definition.activationFunctionDerivative
                  self.definition.updateMultiplier
                  (((self.feedInputs inputs).definition.network.getD m []).map (·.cachedOutput))
                  (((self.feedInputs inputs).proposeUpdates expected).definition.network.getD
                    (m + 2) [])
                  ((self.feedInputs inputs).definition.network.getD (m + 1) [])).getD
                i (Network.node [] 0)) := by
          rw [hprop]
          simp only [List.getD_cons_succ]
          rw [backLayers_getD _ _ _ _ _ _ m hkB, if_neg hcond, hprev, hlayer]
        have h1 : (((self.trainingStep inputs expected).definition.network.getD
              (m + 1) []).getD i (Network.node [] 0)).cachedErrorWrtIn
            = ((((self.feedInputs inputs).proposeUpdates expected).definition.network.getD
              (m + 1) []).getD i (Network.node [] 0)).cachedErrorWrtIn :=
          congrArg (fun t => t.1) (hscr (m + 1) i)
        unfold nodeAt
        rw [h1, hpnode,
          backHiddenLayer_getD_errorWrtIn _ _ _ _ _ i hifed _ (Network.node [] 0),
          nextErrorSum_eq]
        have hlen2 : (((self.feedInputs inputs).proposeUpdates expected).definition.network.getD
              (m + 2) []).length = (self.definition.network.getD (m + 2) []).length :=
          proposed_layer_length self inputs expected (m + 2)
        rw [hlen2]
        congr 1
        apply Finset.sum_congr rfl
        intro k _
        have hterm1 : ((((self.feedInputs inputs).proposeUpdates expected).definition.network.getD
              (m + 2) []).getD k (Network.node [] 0)).cachedErrorWrtIn
            = (((self.trainingStep inputs expected).definition.network.getD
              (m + 2) []).getD k (Network.node [] 0)).cachedErrorWrtIn :=
          (congrArg (fun t => t.1) (hscr (m + 2) k)).symm
        have hterm2 : ((((self.feedInputs inputs).proposeUpdates expected).definition.network.getD
              (m + 2) []).getD k (Network.node [] 0)).weights
            = ((self.definition.network.getD (m + 2) []).getD k (Network.node [] 0)).weights :=
          getD_getD_of_map_eq (·.weights) _ _ (proposed_weights_map self inputs expected)
            (m + 2) k (Network.node [] 0)
        rw [hterm1, hterm2]
    · intro j
      have hA := layer_map_eq_of_map_layers
        (fun n => (n.cachedErrorWrtIn, n.cachedWeightUpdates, n.cachedBiasUpdate))
        _ _ (trainingStep_scratch_map self inputs expected) 0
      rw [hprop] at hA
      simp only [List.getD_cons_zero] at hA
      rw [setInputLayer_map
        (fun n => (n.cachedErrorWrtIn, n.cachedWeightUpdates, n.cachedBiasUpdate))
        (fun _ _ => rfl)] at hA
      have hB : (self.definition.network.getD 0 []).map
            (fun n => (n.cachedErrorWrtIn, n.cachedWeightUpdates, n.cachedBiasUpdate))
          = l0.map (fun n => (n.cachedErrorWrtIn, n.cachedWeightUpdates, n.cachedBiasUpdate)) := by
        rw [hnet]; rfl
      have hall := getD_of_map_eq_list
        (fun n => (n.cachedErrorWrtIn, n.cachedWeightUpdates, n.cachedBiasUpdate))
        _ _ (hA.trans hB.symm) j (Network.node [] 0)
      exact ⟨congrArg (fun t => t.1) hall, congrArg (fun t => t.2.1) hall,
        congrArg (fun t => t.2.2) hall⟩

theorem c2_hidden_layer_witness :
    (1 ≤ 1 ∧ 1 + 1 < witnessNetwork.definition.network.length
      ∧ 0 < (witnessNetwork.definition.network.getD 1 []).length)
    ∧ (nodeAt (witnessNetwork.trainingStep [1, 2] [3]) 1 0).cachedErrorWrtIn
        = (∑ k in Finset.range ((witnessNetwork.definition.network.getD (1 + 1) []).length),
            (nodeAt (witnessNetwork.trainingStep [1, 2] [3]) (1 + 1) k).cachedErrorWrtIn
              * (nodeAt witnessNetwork (1 + 1) k).weights.getD 0 0)
          * witnessNetwork.definition.activationFunctionDerivative
              ((nodeAt (witnessNetwork.feedInputs [1, 2]) 1 0).cachedInput)
    ∧ (nodeAt (witnessNetwork.trainingStep [1, 2] [3]) 0 0).cachedErrorWrtIn
        = (nodeAt witnessNetwork 0 0).cachedErrorWrtIn :=
  ⟨⟨le_refl 1, by decide, by decide⟩,
    (c2_hidden_layer witnessNetwork [1, 2] [3] 1 0 (le_refl 1) (by decide) (by decide)).1,
    ((c2_hidden_layer witnessNetwork [1, 2] [3] 1 0 (le_refl 1) (by decide) (by decide)).2 0).1⟩

theorem c4_feedInputs_forward_witness :
    (0 < (witnessNetwork.definition.network.getD 0 []).length
      ∧ 0 < ([1, 2] : List ℤ).length
      ∧ 0 + 1 < witnessNetwork.definition.network.length
      ∧ 0 < (witnessNetwork.definition.network.getD (0 + 1) []).length)
    ∧ (nodeAt (witnessNetwork.feedInputs [1, 2]) 0 0).cachedOutput = ([1, 2] : List ℤ).getD 0 0
    ∧ (nodeAt (witnessNetwork.feedInputs [1, 2]) (0 + 1) 0).cachedInput
        = (∑ k in Finset.range
            ((nodeAt (witnessNetwork.feedInputs [1, 2]) (0 + 1) 0).weights.length),
            (nodeAt (witnessNetwork.feedInputs [1, 2]) (0 + 1) 0).weights.getD k 0
              * (layerOutputsAt (witnessNetwork.feedInputs [1, 2]) 0).getD k 0)
          + (nodeAt (witnessNetwork.feedInputs [1, 2]) (0 + 1) 0).bias :=
  ⟨⟨by decide, by decide, by decide, by decide⟩,
    (c4_feedInputs_forward witnessNetwork [1, 2]).1 0 (by decide) (by decide),
    ((c4_feedInputs_forward witnessNetwork [1, 2]).2.1 0 0 (by decide) (by decide)).1⟩

/-! ### Claim C6 -/

/-- C6 (counterexample): calling feedInputs with an input vector of length
one on the two-input witness network raises no error of any kind (the
source has no length check and no throw: the embedded operation is a total
function into the state type) and does mutate node state: the first input
node's cached output changes.  This refutes the claim that such a call
fails with a ShapeMismatch error and leaves every node unmutated. -/
theorem c6_counterexample :
    ([(1 : ℤ)].length ≠ (witnessNetwork.definition.network.getD 0 []).length)
    ∧ (nodeAt (witnessNetwork.feedInputs [1]) 0 0).cachedOutput
        ≠ (nodeAt witnessNetwork 0 0).cachedOutput :=
  ⟨by decide, by decide⟩

/-- C6 (amended): feedInputs performs no length validation whatsoever: for
an input vector of any length, it proceeds silently and sets every
input-layer node whose index is covered by the vector to the corresponding
input value, mutating the state (in JavaScript, positions beyond the
vector's length read undefined).  No ShapeMismatch or other error path
exists in the source. -/
theorem c6_amended (self : Network α) (inputs : List α) (j : ℕ)
    (hj : j < (self.definition.network.getD 0 []).length) (hj2 : j < inputs.length) :
    (nodeAt (self.feedInputs inputs) 0 j).cachedOutput = inputs.getD j 0 := by
  cases hnet : self.definition.network with
  | nil => rw [hnet] at hj; simp at hj
  | cons l0 rest =>
    have hj0 : j < l0.length := by rw [hnet] at hj; simpa using hj
    unfold nodeAt
    rw [feedInputs_network self inputs l0 rest hnet]
    simp only [List.getD_cons_zero]
    rw [setInputLayer, getD_mapWithIndex _ (Network.node [] 0) (Network.node [] 0) j l0 hj0]

theorem c6_amended_witness :
    (0 < (witnessNetwork.definition.network.getD 0 []).length ∧ 0 < ([(1 : ℤ)]).length)
    ∧ (nodeAt (witnessNetwork.feedInputs [1]) 0 0).cachedOutput = ([(1 : ℤ)]).getD 0 0 :=
  ⟨⟨by decide, by decide⟩, c6_amended witnessNetwork [1] 0 (by decide) (by decide)⟩

/-! ### Claim C8 -/

/-- C8 (counterexample): constructing a Network from a definition with a
single layer (fewer than the two layers a valid topology requires) raises
no InvalidTopology error: the constructor stores the definition verbatim,
and a subsequent feedInputs call runs on the invalid network, setting its
input-layer node.  Construction-time validation does not exist in the
source. -/
theorem c8_counterexample :
    (Network.mk invalidDefinition).definition.network.length < 2
    ∧ (Network.mk invalidDefinition).definition = invalidDefinition
    ∧ (nodeAt ((Network.mk invalidDefinition).feedInputs [7]) 0 0).cachedOutput = 7 :=
  ⟨by decide, rfl, by decide⟩

/-- C8 (amended): the constructor performs no validation at all: any
definition, including one whose topology has fewer than two layers, is
stored as-is, and the operations run on it without complaint; on a
single-layer network feedInputs simply sets the input layer and finds no
further layers to propagate to. -/
theorem c8_amended (d : NetworkDefinition α) (inputs : List α) (layer : List (Node α))
    (h : d.network = [layer]) :
    (Network.mk d).definition = d
    ∧ ((Network.mk d).feedInputs inputs).definition.network = [setInputLayer inputs layer] := by
  refine ⟨rfl, ?_⟩
  unfold Network.feedInputs
  simp only [h]
  rfl

theorem c8_amended_witness :
    (invalidDefinition.network = [[Network.node [] 0]])
    ∧ (Network.mk invalidDefinition).definition = invalidDefinition
    ∧ ((Network.mk invalidDefinition).feedInputs [7]).definition.network
        = [setInputLayer [7] [Network.node [] 0]] :=
  ⟨rfl, (c8_amended invalidDefinition [7] [Network.node [] 0] rfl).1,
    (c8_amended invalidDefinition [7] [Network.node [] 0] rfl).2⟩

/-! ### Claim C9 -/

theorem exp_neg_taylor (q lo hi : ℝ) (h0 : 0 ≤ q) (h1 : q ≤ 1)
    (hlo : lo ≤ 1 - q + q^2/2 - q^3/6 + q^4/24 - q^5/120 + q^6/720 - q^7/5040 - q^8/35840)
    (hhi : 1 - q + q^2/2 - q^3/6 + q^4/24 - q^5/120 + q^6/720 - q^7/5040 + q^8/35840 ≤ hi) :
    lo ≤ Real.exp (-q) ∧ Real.exp (-q) ≤ hi := by
  have hb := @Real.exp_bound (-q) (by rw [abs_neg, abs_of_nonneg h0]; exact h1) 8 (by norm_num)
  rw [abs_neg, abs_of_nonneg h0] at hb
  have hs : (∑ m in Finset.range 8, (-q) ^ m / (m.factorial : ℝ))
      = 1 - q + q^2/2 - q^3/6 + q^4/24 - q^5/120 + q^6/720 - q^7/5040 := by
    simp [Finset.sum_range_succ, Nat.factorial]
    ring
  rw [hs] at hb
  norm_num [Nat.factorial] at hb
  have h2 := abs_le.mp hb
  constructor <;> nlinarith [h2.1, h2.2]

theorem inv_one_add_bounds (E lo hi cl cu : ℝ) (h1 : lo ≤ E) (h2 : E ≤ hi)
    (h0 : 0 < 1 + lo) (hclpos : 0 ≤ cl)
    (hcl : cl * (1 + hi) ≤ 1) (hcu : 1 ≤ cu * (1 + lo)) :
    cl ≤ (1 + E)⁻¹ ∧ (1 + E)⁻¹ ≤ cu := by
  have hposE : 0 < 1 + E := by linarith
  rw [← one_div]
  constructor
  · rw [le_div_iff hposE]
    nlinarith
  · rw [div_le_iff hposE]
    nlinarith

set_option maxHeartbeats 4000000 in
/-- C9: on the canonical worked-example network of example.js (2 inputs,
hidden weights [[0.15, 0.2], [0.25, 0.3]] with bias 0.35, output weights
[[0.4, 0.45], [0.5, 0.55]] with bias 0.6, logistic activation,
squared-error-halved loss, learning rate 0.5), one trainingStep with inputs
[0.05, 0.10] and expected [0.01, 0.99] moves the first weight of the first
output node to approximately 0.3589: the real-arithmetic value lies within
1/1000 of 0.3589 (in fact the proof pins it between 0.358912 and
0.3589205). -/
theorem c9_weight_regression :
    |(nodeAt ((Network.mk (exampleDefinition Real.exp)).trainingStep
        [0.05, 0.10] [0.01, 0.99]) 2 0).weights.getD 0 0 - 0.3589| < 1 / 1000 := by
  have key : (nodeAt ((Network.mk (exampleDefinition Real.exp)).trainingStep
        [0.05, 0.10] [0.01, 0.99]) 2 0).weights.getD 0 0
      = 2 / 5 +
        -(((1 + Real.exp (-(3 / 5) +
              (-((1 + Real.exp (-(157 / 400)))⁻¹ * (9 / 20)) +
                -((1 + Real.exp (-(151 / 400)))⁻¹ * (2 / 5)))))⁻¹ - 1 / 100) *
            ((1 + Real.exp (-(3 / 5) +
              (-((1 + Real.exp (-(157 / 400)))⁻¹ * (9 / 20)) +
                -((1 + Real.exp (-(151 / 400)))⁻¹ * (2 / 5)))))⁻¹ *
              (1 - (1 + Real.exp (-(3 / 5) +
                (-((1 + Real.exp (-(157 / 400)))⁻¹ * (9 / 20)) +
                  -((1 + Real.exp (-(151 / 400)))⁻¹ * (2 / 5)))))⁻¹)) *
            (1 + Real.exp (-(151 / 400)))⁻¹ * (1 / 2)) := by
    simp only [Network.trainingStep, Network.feedInputs, Network.proposeUpdates,
      applyUpdates, backLayers, backOutputLayer, backHiddenLayer, nextErrorSum,
      forwardLayers, layerForward, setInputLayer, mapWithIndex, mapWithIndexFrom,
      weightedSumFrom, nodeAt, Network.node, exampleDefinition, List.map_cons,
      List.map_nil, List.foldl_cons, List.foldl_nil, List.getD_cons_zero,
      List.getD_cons_succ]
    norm_num
  rw [key]
  have ha := exp_neg_taylor (151/400) 0.685573 0.685574
    (by norm_num) (by norm_num) (by norm_num) (by norm_num)
  have hb := exp_neg_taylor (157/400) 0.675366 0.675367
    (by norm_num) (by norm_num) (by norm_num) (by norm_num)
  have hs1 := inv_one_add_bounds (Real.exp (-(151/400))) 0.685573 0.685574 0.59326 0.59328
    ha.1 ha.2 (by norm_num) (by norm_num) (by norm_num) (by norm_num)
  have hs2 := inv_one_add_bounds (Real.exp (-(157/400))) 0.675366 0.675367 0.59687 0.59690
    hb.1 hb.2 (by norm_num) (by norm_num) (by norm_num) (by norm_num)
  have hA1 : (-(1.10592 : ℝ)) ≤ -(3 / 5) +
      (-((1 + Real.exp (-(157 / 400)))⁻¹ * (9 / 20)) +
        -((1 + Real.exp (-(151 / 400)))⁻¹ * (2 / 5))) := by
    nlinarith [hs1.1, hs1.2, hs2.1, hs2.2]
  have hA2 : -(3 / 5) +
      (-((1 + Real.exp (-(157 / 400)))⁻¹ * (9 / 20)) +
        -((1 + Real.exp (-(151 / 400)))⁻¹ * (2 / 5))) ≤ (-(1.10589 : ℝ)) := by
    nlinarith [hs1.1, hs1.2, hs2.1, hs2.2]
  have hcu' : Real.exp (-(3 / 5) +
      (-((1 + Real.exp (-(157 / 400)))⁻¹ * (9 / 20)) +
        -((1 + Real.exp (-(151 / 400)))⁻¹ * (2 / 5)))) ≤ Real.exp (-(1.10589 : ℝ)) :=
    Real.exp_le_exp.mpr hA2
  have hcl' : Real.exp (-(1.10592 : ℝ)) ≤ Real.exp (-(3 / 5) +
      (-((1 + Real.exp (-(157 / 400)))⁻¹ * (9 / 20)) +
        -((1 + Real.exp (-(151 / 400)))⁻¹ * (2 / 5)))) :=
    Real.exp_le_exp.mpr hA1
  have hsplit1 : Real.exp (-(1.10589 : ℝ))
      = Real.exp (-(0.552945 : ℝ)) * Real.exp (-(0.552945 : ℝ)) := by
    rw [← Real.exp_add]; norm_num
  have hsplit2 : Real.exp (-(1.10592 : ℝ))
      = Real.exp (-(0.55296 : ℝ)) * Real.exp (-(0.55296 : ℝ)) := by
    rw [← Real.exp_add]; norm_num
  have he945 := exp_neg_taylor 0.552945 0.575252 0.575254
    (by norm_num) (by norm_num) (by norm_num) (by norm_num)
  have he96 := exp_neg_taylor 0.55296 0.575243 0.575246
    (by norm_num) (by norm_num) (by norm_num) (by norm_num)
  have hepos1 : (0 : ℝ) < Real.exp (-(0.552945 : ℝ)) := Real.exp_pos _
  have hepos2 : (0 : ℝ) < Real.exp (-(0.55296 : ℝ)) := Real.exp_pos _
  have hcu : Real.exp (-(3 / 5) +
      (-((1 + Real.exp (-(157 / 400)))⁻¹ * (9 / 20)) +
        -((1 + Real.exp (-(151 / 400)))⁻¹ * (2 / 5)))) ≤ 0.330918 := by
    have h1 : Real.exp (-(1.10589 : ℝ)) ≤ 0.330918 := by
      rw [hsplit1]
      nlinarith [he945.1, he945.2, hepos1]
    linarith [hcu', h1]
  have hcl : (0.330904 : ℝ) ≤ Real.exp (-(3 / 5) +
      (-((1 + Real.exp (-(157 / 400)))⁻¹ * (9 / 20)) +
        -((1 + Real.exp (-(151 / 400)))⁻¹ * (2 / 5)))) := by
    have h1 : (0.330904 : ℝ) ≤ Real.exp (-(1.10592 : ℝ)) := by
      rw [hsplit2]
      nlinarith [he96.1, he96.2, hepos2]
    linarith [hcl', h1]
  have ho1 := inv_one_add_bounds (Real.exp (-(3 / 5) +
      (-((1 + Real.exp (-(157 / 400)))⁻¹ * (9 / 20)) +
        -((1 + Real.exp (-(151 / 400)))⁻¹ * (2 / 5))))) 0.330904 0.330918 0.75135 0.75138
    hcl hcu (by norm_num) (by norm_num) (by norm_num) (by norm_num)
  set x := (1 + Real.exp (-(3 / 5) +
      (-((1 + Real.exp (-(157 / 400)))⁻¹ * (9 / 20)) +
        -((1 + Real.exp (-(151 / 400)))⁻¹ * (2 / 5)))))⁻¹ with hxdef
  set s := (1 + Real.exp (-(151 / 400)))⁻¹ with hsdef
  have hx1 : (0.75135 : ℝ) ≤ x := ho1.1
  have hx2 : x ≤ (0.75138 : ℝ) := ho1.2
  have hss1 : (0.59326 : ℝ) ≤ s := hs1.1
  have hss2 : s ≤ (0.59328 : ℝ) := hs1.2
  have hd2hi : x * (1 - x) ≤ 0.186824 := by
    nlinarith [mul_nonneg (by linarith : (0:ℝ) ≤ x - 0.75135)
      (by linarith : (0:ℝ) ≤ x - 0.24865)]
  have hd2lo : (0.186808 : ℝ) ≤ x * (1 - x) := by
    nlinarith [mul_nonneg (by linarith : (0:ℝ) ≤ 0.75138 - x)
      (by linarith : (0:ℝ) ≤ x - 0.24862)]
  have hd2pos : (0 : ℝ) ≤ x * (1 - x) := by linarith
  have hd1lo : (0.74135 : ℝ) ≤ x - 1 / 100 := by linarith
  have hd1hi : x - 1 / 100 ≤ (0.74138 : ℝ) := by linarith
  have hphi : (x - 1 / 100) * (x * (1 - x)) ≤ 0.138511 := by
    nlinarith [mul_nonneg (by linarith : (0:ℝ) ≤ 0.74138 - (x - 1 / 100)) hd2pos]
  have hplo : (0.138490 : ℝ) ≤ (x - 1 / 100) * (x * (1 - x)) := by
    nlinarith [mul_nonneg (by linarith : (0:ℝ) ≤ (x - 1 / 100) - 0.74135)
      (by linarith : (0:ℝ) ≤ x * (1 - x) - 0.186808),
      mul_nonneg (by linarith : (0:ℝ) ≤ (x - 1 / 100) - 0.74135)
      (by linarith : (0:ℝ) ≤ 0.186824 - x * (1 - x))]
  have hPhi : (x - 1 / 100) * (x * (1 - x)) * s ≤ 0.082176 := by
    nlinarith [mul_nonneg (by linarith : (0:ℝ) ≤ 0.138511 - (x - 1 / 100) * (x * (1 - x)))
      (by linarith : (0:ℝ) ≤ s)]
  have hPlo : (0.082159 : ℝ) ≤ (x - 1 / 100) * (x * (1 - x)) * s := by
    nlinarith [mul_nonneg (by linarith : (0:ℝ) ≤ (x - 1 / 100) * (x * (1 - x)) - 0.138490)
      (by linarith : (0:ℝ) ≤ s - 0.59326),
      mul_nonneg (by linarith : (0:ℝ) ≤ (x - 1 / 100) * (x * (1 - x)) - 0.138490)
      (by linarith : (0:ℝ) ≤ 0.59328 - s)]
  rw [abs_lt]
  constructor
  · nlinarith [hPhi]
  · nlinarith [hPlo]
